import Mathlib

/-!
Shallow embedding of `src/physics/Quadtree.js` (the protovis quadtree).

JavaScript numbers are modelled by `JSNum`: exact rationals extended with
the two infinities and NaN, with the arithmetic and comparison operations
the quadtree source actually uses (`+`, `-`, `/2`, `abs`, `<`, `>`, `>=`).
Rational arithmetic is exact where IEEE doubles round; every comparison
the concrete claims depend on is instantiated with the exact rational
values of the corresponding double literals, so the Boolean outcomes
agree with the JavaScript execution.

The mutable node graph is modelled twice:
* `QNode`, a pure inductive tree, for the structural claims about
  `insert`/`insertChild` and the constructor `pv.Quadtree` (mutation is
  modelled by returning the updated node);
* `HNode`, the same shape with an identity tag on every node, for the
  node-pool claims about `dispose` and `node()` (`acquire`), where object
  identity matters.
-/

namespace Quadtree

/-!
Kernel-computable rational arithmetic: the standard `Rat` operations are
`@[irreducible]`, so the operations used by the quadtree are built from
`mkRat` (which the kernel evaluates); `qadd_eq`, `qneg_eq`, `qhalf_eq`
and `qabs_eq` below prove them equal to the standard ones.
-/

/-- Exact rational addition, computable by the kernel. -/
def qadd (a b : ℚ) : ℚ := mkRat (a.num * b.den + b.num * a.den) (a.den * b.den)

/-- Exact rational negation, computable by the kernel. -/
def qneg (a : ℚ) : ℚ := mkRat (-a.num) a.den

/-- Exact rational halving, computable by the kernel. -/
def qhalf (a : ℚ) : ℚ := mkRat a.num (a.den * 2)

/-- Exact rational absolute value, computable by the kernel. -/
def qabs (a : ℚ) : ℚ := mkRat (a.num.natAbs : ℤ) a.den

/-- A JavaScript number: NaN, the infinities, or a finite value
(modelled as an exact rational). -/
inductive JSNum where
  | nan : JSNum
  | pinf : JSNum
  | ninf : JSNum
  | fin (q : ℚ) : JSNum
deriving DecidableEq, Repr

namespace JSNum

/-- JavaScript `isNaN`. -/
def isNaN : JSNum → Bool
  | nan => true
  | _ => false

/-- JavaScript `<` (any comparison with NaN is false). -/
def jlt : JSNum → JSNum → Bool
  | nan, _ => false
  | _, nan => false
  | ninf, ninf => false
  | ninf, _ => true
  | _, ninf => false
  | pinf, _ => false
  | _, pinf => true
  | fin a, fin b => a < b

/-- JavaScript `>`. -/
def jgt (a b : JSNum) : Bool := jlt b a

/-- JavaScript `>=` (`a >= b` iff neither is NaN and not `a < b`). -/
def jge (a b : JSNum) : Bool := !a.isNaN && !b.isNaN && !(jlt a b)

/-- JavaScript unary negation. -/
def jneg : JSNum → JSNum
  | nan => nan
  | pinf => ninf
  | ninf => pinf
  | fin q => fin (qneg q)

/-- JavaScript `+` (NaN propagates; opposite infinities give NaN). -/
def jadd : JSNum → JSNum → JSNum
  | nan, _ => nan
  | _, nan => nan
  | pinf, ninf => nan
  | ninf, pinf => nan
  | pinf, _ => pinf
  | _, pinf => pinf
  | ninf, _ => ninf
  | _, ninf => ninf
  | fin a, fin b => fin (qadd a b)

/-- JavaScript `-`. -/
def jsub (a b : JSNum) : JSNum := jadd a (jneg b)

/-- JavaScript `/ 2`. -/
def jhalf : JSNum → JSNum
  | nan => nan
  | pinf => pinf
  | ninf => ninf
  | fin q => fin (qhalf q)

/-- JavaScript `Math.abs`. -/
def jabs : JSNum → JSNum
  | nan => nan
  | pinf => pinf
  | ninf => pinf
  | fin q => fin (qabs q)

end JSNum

open JSNum

/-- A particle: the external point entity with numeric coordinates
(`p.x`, `p.y` in the source; the `next` link is modelled by putting the
particles in a `List`). -/
structure Pt where
  x : JSNum
  y : JSNum
deriving DecidableEq, Repr

/-- A quadtree node (`pv.Quadtree.Node`): the `leaf` flag, the optional
attached particle `p`, and the four optional children `c1`–`c4`. -/
inductive QNode where
  | mk (leaf : Bool) (pt : Option Pt) (c1 c2 c3 c4 : Option QNode)

namespace QNode

def leaf : QNode → Bool
  | mk l _ _ _ _ _ => l

def pt : QNode → Option Pt
  | mk _ p _ _ _ _ => p

def c1 : QNode → Option QNode
  | mk _ _ a _ _ _ => a

def c2 : QNode → Option QNode
  | mk _ _ _ a _ _ => a

def c3 : QNode → Option QNode
  | mk _ _ _ _ a _ => a

def c4 : QNode → Option QNode
  | mk _ _ _ _ _ a => a

/-- Child slot `i` (1–4), the accessor form of `c1`–`c4`. -/
def childSlot (n : QNode) : ℕ → Option QNode
  | 1 => n.c1
  | 2 => n.c2
  | 3 => n.c3
  | 4 => n.c4
  | _ => none

end QNode

/-- A fresh node, as produced by `new pv.Quadtree.Node()` (or drawn from
the pool after `dispose` cleared it): a leaf with no particle and no
children. -/
def freshNode : QNode := QNode.mk true none none none none none

/-- The split abscissa `sx = (x1 + x2) / 2` of `insertChild` (same
formula for `sy`). -/
def split (a b : JSNum) : JSNum := jhalf (jadd a b)

/-- The quadrant index `c = (p.x >= sx) + (p.y >= sy) * 2` of
`insertChild`. -/
def quadIndex (p : Pt) (x1 y1 x2 y2 : JSNum) : ℕ :=
  (if jge p.x (split x1 x2) then 1 else 0) +
    (if jge p.y (split y1 y2) then 1 else 0) * 2

/-- The bounds update of `insertChild`:
`if (c == 1 || c == 3) x1 = sx; else x2 = sx; if (c > 1) y1 = sy; else y2 = sy`.
Returns the narrowed `(x1, y1, x2, y2)`. -/
def narrow (c : ℕ) (x1 y1 x2 y2 : JSNum) : JSNum × JSNum × JSNum × JSNum :=
  let sx := split x1 x2
  let sy := split y1 y2
  ((if c = 1 ∨ c = 3 then sx else x1),
   (if 1 < c then sy else y1),
   (if c = 1 ∨ c = 3 then x2 else sx),
   (if 1 < c then y2 else sy))

/-- The coincidence test of `insert`:
`(Math.abs(n.p.x - p.x) + Math.abs(n.p.y - p.y)) < .01`.
The tolerance literal `.01` is modelled by the exact rational `1/100`. -/
def coincident (q p : Pt) : Bool :=
  jlt (jadd (jabs (jsub q.x p.x)) (jabs (jsub q.y p.y))) (fin (mkRat 1 100))

/-- The body of `insertChild(n, p, x1, y1, x2, y2)` from the source,
parameterized by the recursive continuation `ins` (which is `insert` at
the remaining fuel): compute the split point and quadrant
`c = (p.x >= sx) + (p.y >= sy) * 2`, narrow the bounds, mark `n`
non-leaf, lazily create the chosen child (slot `c + 1`) and recurse
into it. -/
def insertChildWith
    (ins : QNode → Pt → JSNum → JSNum → JSNum → JSNum → Option (QNode × List Pt))
    (n : QNode) (p : Pt) (x1 y1 x2 y2 : JSNum) : Option (QNode × List Pt) :=
  let c := quadIndex p x1 y1 x2 y2
  match narrow c x1 y1 x2 y2 with
  | (nx1, ny1, nx2, ny2) =>
    match c with
    | 0 =>
      match ins (n.c1.getD freshNode) p nx1 ny1 nx2 ny2 with
      | none => none
      | some (ch, r) =>
        some (QNode.mk false n.pt (some ch) n.c2 n.c3 n.c4, r)
    | 1 =>
      match ins (n.c2.getD freshNode) p nx1 ny1 nx2 ny2 with
      | none => none
      | some (ch, r) =>
        some (QNode.mk false n.pt n.c1 (some ch) n.c3 n.c4, r)
    | 2 =>
      match ins (n.c3.getD freshNode) p nx1 ny1 nx2 ny2 with
      | none => none
      | some (ch, r) =>
        some (QNode.mk false n.pt n.c1 n.c2 (some ch) n.c4, r)
    | _ =>
      match ins (n.c4.getD freshNode) p nx1 ny1 nx2 ny2 with
      | none => none
      | some (ch, r) =>
        some (QNode.mk false n.pt n.c1 n.c2 n.c3 (some ch), r)

/-- `insert(n, p, x1, y1, x2, y2)` from the source, with mutation
modelled by returning the updated node.  `fuel` bounds the recursion
depth (the JavaScript recursion is not structurally bounded; one unit of
fuel is consumed per `insert`/`insertChild` hop); `none` means the fuel
ran out.
Modelled from the spec: the source's NaN guard calls `fail()`, which is
not defined anywhere under `src/`; per the spec (§7 `InvalidCoordinate`)
the condition is signalled to the caller, e.g. via a collected list of
rejected points.  `insert` therefore returns, next to the updated node,
the list of particles on which `fail()` fired, and `build` accumulates
them into `QTree.rejected`. -/
def insert : ℕ → QNode → Pt → JSNum → JSNum → JSNum → JSNum →
    Option (QNode × List Pt)
  | 0, _, _, _, _, _, _ => none
  | fuel + 1, n, p, x1, y1, x2, y2 =>
    if p.x.isNaN || p.y.isNaN then
      some (n, [p])
    else if n.leaf then
      match n.pt with
      | some q =>
        if coincident q p then
          insertChildWith (insert fuel) n p x1 y1 x2 y2
        else
          match insertChildWith (insert fuel)
              (QNode.mk n.leaf none n.c1 n.c2 n.c3 n.c4) q x1 y1 x2 y2 with
          | none => none
          | some (n1, r1) =>
            match insertChildWith (insert fuel) n1 p x1 y1 x2 y2 with
            | none => none
            | some (n2, r2) => some (n2, r1 ++ r2)
      | none => some (QNode.mk n.leaf (some p) n.c1 n.c2 n.c3 n.c4, [])
    else
      insertChildWith (insert fuel) n p x1 y1 x2 y2

/-- `insertChild(n, p, x1, y1, x2, y2)` from the source: its body with
the recursive call going back into `insert` at the given fuel. -/
def insertChild (fuel : ℕ) : QNode → Pt → JSNum → JSNum → JSNum → JSNum →
    Option (QNode × List Pt) :=
  insertChildWith (insert fuel)

/-- One step of the bounds scan of the constructor `pv.Quadtree`:
`if (p.x < x1) x1 = p.x; if (p.y < y1) y1 = p.y; if (p.x > x2) x2 = p.x;
if (p.y > y2) y2 = p.y` (all four comparisons are false on NaN
coordinates). -/
def scanStep (b : JSNum × JSNum × JSNum × JSNum) (p : Pt) :
    JSNum × JSNum × JSNum × JSNum :=
  match b with
  | (x1, y1, x2, y2) =>
    ((if jlt p.x x1 then p.x else x1),
     (if jlt p.y y1 then p.y else y1),
     (if jgt p.x x2 then p.x else x2),
     (if jgt p.y y2 then p.y else y2))

/-- The bounds scan of the constructor `pv.Quadtree`: starting from
`x1 = y1 = +∞`, `x2 = y2 = -∞`, each particle lowers the minima and
raises the maxima.  Returns `(x1, y1, x2, y2)`. -/
def scanBounds (ps : List Pt) : JSNum × JSNum × JSNum × JSNum :=
  ps.foldl scanStep (JSNum.pinf, JSNum.pinf, JSNum.ninf, JSNum.ninf)

/-- The squarification step of the constructor:
`dx = x2 - x1; dy = y2 - y1; if (dx > dy) y2 = y1 + dx; else x2 = x1 + dy`. -/
def squarify (x1 y1 x2 y2 : JSNum) : JSNum × JSNum × JSNum × JSNum :=
  let dx := jsub x2 x1
  let dy := jsub y2 y1
  if jgt dx dy then (x1, y1, x2, jadd y1 dx) else (x1, y1, jadd x1 dy, y2)

/-- The built quadtree object: `root` and the stored bounds
`xMin`, `yMin`, `xMax`, `yMax`, plus the list of rejected particles
(modelled from the spec, see `insert`). -/
structure QTree where
  root : QNode
  xMin : JSNum
  yMin : JSNum
  xMax : JSNum
  yMax : JSNum
  rejected : List Pt

/-- The insertion loop `for (p = particles; p; p = p.next) insert(...)`,
threading the updated root and accumulating rejected particles. -/
def insertPoints (fuel : ℕ) (x1 y1 x2 y2 : JSNum) :
    QNode → List Pt → List Pt → Option (QNode × List Pt)
  | n, rs, [] => some (n, rs)
  | n, rs, p :: ps =>
    match insert fuel n p x1 y1 x2 y2 with
    | none => none
    | some (n1, r) => insertPoints fuel x1 y1 x2 y2 n1 (rs ++ r) ps

/-- The constructor `pv.Quadtree(particles)`: scan the bounds, squarify
them, acquire a root node unconditionally, insert every particle with
the squarified bounds, and store those bounds on the tree. -/
def build (fuel : ℕ) (ps : List Pt) : Option QTree :=
  match scanBounds ps with
  | (x1, y1, x2, y2) =>
    match squarify x1 y1 x2 y2 with
    | (sx1, sy1, sx2, sy2) =>
      match insertPoints fuel sx1 sy1 sx2 sy2 freshNode [] ps with
      | none => none
      | some (r, rej) => some ⟨r, sx1, sy1, sx2, sy2, rej⟩

/-- Walk the tree from a node by recomputing, at each level, the quadrant
decision of `insertChild` from the particle's own coordinates and
narrowing the bounds the same way; return true iff the walk reaches a
node whose directly attached particle is `p` (which covers both a node
holding `p` and a coincidence-anchor ancestor on the path). -/
def walkHolds (p : Pt) : QNode → JSNum → JSNum → JSNum → JSNum → Bool
  | QNode.mk l pt c1 c2 c3 c4, x1, y1, x2, y2 =>
    if pt = some p then true
    else if l then false
    else
      let c := quadIndex p x1 y1 x2 y2
      let b := narrow c x1 y1 x2 y2
      match c with
      | 0 =>
        match c1 with
        | none => false
        | some m => walkHolds p m b.1 b.2.1 b.2.2.1 b.2.2.2
      | 1 =>
        match c2 with
        | none => false
        | some m => walkHolds p m b.1 b.2.1 b.2.2.1 b.2.2.2
      | 2 =>
        match c3 with
        | none => false
        | some m => walkHolds p m b.1 b.2.1 b.2.2.1 b.2.2.2
      | _ =>
        match c4 with
        | none => false
        | some m => walkHolds p m b.1 b.2.1 b.2.2.1 b.2.2.2
termination_by structural n _ _ _ _ => n

/-- `walkHolds` lifted to an optional child (`false` on a null slot). -/
def walkO (p : Pt) (o : Option QNode) (x1 y1 x2 y2 : JSNum) : Bool :=
  match o with
  | none => false
  | some m => walkHolds p m x1 y1 x2 y2

/-- The documented invariant of `pv.Quadtree.Node`: every node of the
tree with `leaf == false` has at least one non-null child. -/
def nonleafInv : QNode → Bool
  | QNode.mk l _ c1 c2 c3 c4 =>
    (l || c1.isSome || c2.isSome || c3.isSome || c4.isSome) &&
      (match c1 with
       | none => true
       | some m => nonleafInv m) &&
      (match c2 with
       | none => true
       | some m => nonleafInv m) &&
      (match c3 with
       | none => true
       | some m => nonleafInv m) &&
      (match c4 with
       | none => true
       | some m => nonleafInv m)

/-- `nonleafInv` lifted to an optional child (`true` on a null slot). -/
def nlInvO : Option QNode → Bool
  | none => true
  | some m => nonleafInv m

/-- Number of nodes of a tree. -/
def nodeCount : QNode → ℕ
  | QNode.mk _ _ c1 c2 c3 c4 =>
    1 +
      (match c1 with
       | none => 0
       | some m => nodeCount m) +
      (match c2 with
       | none => 0
       | some m => nodeCount m) +
      (match c3 with
       | none => 0
       | some m => nodeCount m) +
      (match c4 with
       | none => 0
       | some m => nodeCount m)

/-! ### Node pool (`node()` / `dispose`)

For the pool claims node identity matters, so the tree is re-modelled as
`HNode`, the same shape as `QNode` but with an identity tag on every
node; the pool (`pv.Quadtree.$cache`, a linked list threaded through the
`next` fields) is modelled as a `List` of `PoolNode` records holding the
field values a pooled node carries. -/

/-- A quadtree node with an identity tag (`id`), for the pool claims. -/
inductive HNode where
  | mk (id : ℕ) (leaf : Bool) (pt : Option Pt) (c1 c2 c3 c4 : Option HNode)

/-- The state of a node sitting on the free list: its identity and its
field values (`leaf`, `p`, and the four child references, given by
identity).  `dispose` pushes every node cleared: `leaf = true`, all
children and the particle null. -/
structure PoolNode where
  id : ℕ
  leaf : Bool
  pt : Option Pt
  c1 : Option ℕ
  c2 : Option ℕ
  c3 : Option ℕ
  c4 : Option ℕ
deriving DecidableEq, Repr

/-- The multiset of node identities of a tree. -/
def hIds : HNode → Multiset ℕ
  | HNode.mk i _ _ c1 c2 c3 c4 =>
    {i} +
      (match c1 with
       | none => 0
       | some m => hIds m) +
      (match c2 with
       | none => 0
       | some m => hIds m) +
      (match c3 with
       | none => 0
       | some m => hIds m) +
      (match c4 with
       | none => 0
       | some m => hIds m)

/-- Number of nodes of an identity-tagged tree. -/
def hCount : HNode → ℕ
  | HNode.mk _ _ _ c1 c2 c3 c4 =>
    1 +
      (match c1 with
       | none => 0
       | some m => hCount m) +
      (match c2 with
       | none => 0
       | some m => hCount m) +
      (match c3 with
       | none => 0
       | some m => hCount m) +
      (match c4 with
       | none => 0
       | some m => hCount m)

/-- The recursive `dispose(n)` of `pv.Quadtree.prototype.dispose`:
dispose the existing children first (`c1`, `c2`, `c3`, `c4`), then clear
the node (`leaf = true`, children and particle null) and push it on the
front of the free list. -/
def dispose : HNode → List PoolNode → List PoolNode
  | HNode.mk i _ _ c1 c2 c3 c4, cache =>
    let cache1 :=
      match c1 with
      | none => cache
      | some m => dispose m cache
    let cache2 :=
      match c2 with
      | none => cache1
      | some m => dispose m cache1
    let cache3 :=
      match c3 with
      | none => cache2
      | some m => dispose m cache2
    let cache4 :=
      match c4 with
      | none => cache3
      | some m => dispose m cache3
    ⟨i, true, none, none, none, none, none⟩ :: cache4

/-- `dispose` lifted to an optional child (`if (n.cK) dispose(n.cK)`). -/
def disposeO (o : Option HNode) (cache : List PoolNode) : List PoolNode :=
  match o with
  | none => cache
  | some m => dispose m cache

/-- `hIds` lifted to an optional child. -/
def hIdsO : Option HNode → Multiset ℕ
  | none => 0
  | some m => hIds m

/-- `hCount` lifted to an optional child. -/
def hCountO : Option HNode → ℕ
  | none => 0
  | some m => hCount m

/-- `node()` from the source (the pool's acquire): pop the head of the
free list when it is non-empty, else allocate a fresh node (modelled
with a fresh-identity counter).  The final Boolean reports whether a
fresh allocation happened. -/
def acquire : List PoolNode → ℕ → PoolNode × List PoolNode × ℕ × Bool
  | n :: rest, fresh => (n, rest, fresh, false)
  | [], fresh => (⟨fresh, true, none, none, none, none, none⟩, [], fresh + 1, true)

/-- `k` successive calls to `node()`: returns the nodes acquired in
order, the remaining free list, the fresh counter, and how many fresh
allocations happened. -/
def acquireN : ℕ → List PoolNode → ℕ → List PoolNode × List PoolNode × ℕ × ℕ
  | 0, cache, fresh => ([], cache, fresh, 0)
  | k + 1, cache, fresh =>
    match acquire cache fresh with
    | (n, cache1, fresh1, isNew) =>
      match acquireN k cache1 fresh1 with
      | (ns, cache2, fresh2, fc) =>
        (n :: ns, cache2, fresh2, fc + (if isNew then 1 else 0))

/-- A pooled node is fully reset: `leaf` is true again and the particle
and the four child references are null. -/
def clearedPool (e : PoolNode) : Prop :=
  e.leaf = true ∧ e.pt = none ∧ e.c1 = none ∧ e.c2 = none ∧ e.c3 = none ∧ e.c4 = none

/-! ### Helper lemmas: the computable rational layer agrees with `ℚ` -/

theorem qhalf_eq (a : ℚ) : qhalf a = a / 2 := by
  unfold qhalf
  rw [Rat.mkRat_eq_div]
  conv_rhs => rw [← Rat.num_div_den a]
  push_cast
  rw [div_div]

theorem qabs_eq (a : ℚ) : qabs a = |a| := by
  unfold qabs
  rw [Rat.mkRat_eq_div]
  conv_rhs => rw [← Rat.num_div_den a]
  rw [abs_div]
  have h1 : |((a.num : ℚ))| = ((a.num.natAbs : ℤ) : ℚ) := by
    rw [Int.cast_natAbs]
    norm_num
  have h2 : |((a.den : ℚ))| = (a.den : ℚ) := by
    rw [abs_of_pos]
    exact_mod_cast a.pos
  rw [h1, h2]

theorem jhalf_fin (a : ℚ) : jhalf (fin a) = fin (a / 2) := by
  rw [jhalf, qhalf_eq]

theorem jabs_fin (a : ℚ) : jabs (fin a) = fin |a| := by
  rw [jabs, qabs_eq]

theorem jge_fin (a b : ℚ) : jge (fin a) (fin b) = decide (b ≤ a) := by
  rw [jge]
  by_cases h : a < b
  · simp [jlt, isNaN, h, not_le.2 h]
  · simp [jlt, isNaN, h, not_lt.1 h]

/-- C10: the constructor acquires one root node unconditionally before
any particle is inserted (in the model `QTree.root` is total, never
null), so building from zero particles succeeds for every fuel and
yields a root that is a leaf with no attached particle and no
children. -/
theorem build_empty_root (fuel : ℕ) :
    (build fuel []).isSome = true ∧
      (build fuel []).map
          (fun t => (t.root.leaf, t.root.pt, t.root.c1, t.root.c2, t.root.c3, t.root.c4)) =
        some (true, none, none, none, none, none) := by
  exact ⟨rfl, rfl⟩

/-- C9, counterexample: building from the empty sequence leaves the
stored bounds exactly as the scan's uninitialized values: `xMin` and
`yMin` are `+∞`, `yMax` is `-∞`, and `xMax` is NaN (squarification
computes `+∞ + (-∞)`) — contradicting the claim that the stored bounds
are never the scan's infinities or values derived from them. -/
theorem build_empty_bounds_cex :
    (build 1 []).map (fun t => (t.xMin, t.yMin, t.xMax, t.yMax)) =
      some (JSNum.pinf, JSNum.pinf, JSNum.nan, JSNum.ninf) := rfl

/-- C9, amended: building from the empty sequence is well-defined in
that it produces a tree with a fresh leaf root, but its stored bounds
are the scan's uninitialized infinities (`xMin = yMin = +∞`,
`yMax = -∞`) and the squarified `xMax = +∞ + (-∞) = NaN`. -/
theorem build_empty_bounds (fuel : ℕ) :
    (build fuel []).map (fun t => (t.xMin, t.yMin, t.xMax, t.yMax, t.rejected)) =
      some (JSNum.pinf, JSNum.pinf, JSNum.nan, JSNum.ninf, []) := rfl

/-- C6, counterexample: building from the two particles `(5, 5)` and
`(5.005, 5.005)` (the exact rational values of the IEEE-754 doubles
denoted by those JavaScript literals; they are coincident within the
tolerance) does *not* leave the root a leaf: `insertChild` marks the
root non-leaf when it pushes the second particle down. -/
theorem build_coincident_pair_cex :
    (build 30 [⟨fin 5, fin 5⟩,
        ⟨fin (mkRat 5635129033747333 1125899906842624),
         fin (mkRat 5635129033747333 1125899906842624)⟩]).map
        (fun t => t.root.leaf) = some false := by decide

set_option maxHeartbeats 2000000 in
/-- C6, amended: building from exactly `(5, 5)` and `(5.005, 5.005)`
(IEEE doubles, within the coincidence tolerance), inserted in that
order, produces a root that is *non-leaf* but keeps the first particle
directly attached as the coincidence anchor, with a single child (the
fourth quadrant slot) that is a leaf holding the second particle; no
other node is created. -/
theorem build_coincident_pair :
    build 30 [⟨fin 5, fin 5⟩,
        ⟨fin (mkRat 5635129033747333 1125899906842624),
         fin (mkRat 5635129033747333 1125899906842624)⟩] =
      some ⟨QNode.mk false (some ⟨fin 5, fin 5⟩) none none none
          (some (QNode.mk true
            (some ⟨fin (mkRat 5635129033747333 1125899906842624),
                   fin (mkRat 5635129033747333 1125899906842624)⟩)
            none none none none)),
        fin 5, fin 5,
        fin (mkRat 5635129033747333 1125899906842624),
        fin (mkRat 5635129033747333 1125899906842624), []⟩ := rfl

/-- C2, counterexample: a particle with `x = NaN` but a finite `y` is
rejected by `insert`, yet its finite coordinate still participates in
the bounding-box scan, so the built tree's bounds *and* node count
differ from the build without that particle: with `(0,0)`, `(6,6)` and
`(NaN, 100)` the tree has 7 nodes and squarified bounds `[0,100]²`,
while without the NaN particle it has 3 nodes and bounds `[0,6]²`;
the claim's "node count and structure identical" fails. -/
theorem build_nan_structure_cex :
    (build 30 [⟨fin 0, fin 0⟩, ⟨fin 6, fin 6⟩, ⟨JSNum.nan, fin 100⟩]).map
        (fun t => (nodeCount t.root, t.xMax)) = some (7, fin 100) ∧
      (build 30 [⟨fin 0, fin 0⟩, ⟨fin 6, fin 6⟩]).map
        (fun t => (nodeCount t.root, t.xMax)) = some (3, fin 6) := by
  exact ⟨by decide, by decide⟩

/-- C5: when `insert` reaches a leaf node holding a particle `q` that is
coincident with the incoming particle `p` (Manhattan distance below the
absolute constant tolerance `0.01`), only `p` is pushed down into a
(freshly created) child in the quadrant chosen from `p`'s coordinates,
while `q` stays directly attached to the node. -/
theorem insert_coincident_keeps_anchor (g : ℕ) (q p : Pt) (x1 y1 x2 y2 : JSNum)
    (hx : p.x.isNaN = false) (hy : p.y.isNaN = false)
    (hco : coincident q p = true) :
    insert (g + 2) (QNode.mk true (some q) none none none none) p x1 y1 x2 y2 =
      some (QNode.mk false (some q)
        (if quadIndex p x1 y1 x2 y2 = 0 then
          some (QNode.mk true (some p) none none none none) else none)
        (if quadIndex p x1 y1 x2 y2 = 1 then
          some (QNode.mk true (some p) none none none none) else none)
        (if quadIndex p x1 y1 x2 y2 = 2 then
          some (QNode.mk true (some p) none none none none) else none)
        (if 3 ≤ quadIndex p x1 y1 x2 y2 then
          some (QNode.mk true (some p) none none none none) else none),
        []) := by
  by_cases h1 : jge p.x (split x1 x2) = true <;>
    by_cases h2 : jge p.y (split y1 y2) = true <;>
      simp [insert, insertChildWith, quadIndex, narrow, hx, hy, hco,
        QNode.leaf, QNode.pt, QNode.c1, QNode.c2, QNode.c3, QNode.c4,
        h1, h2, freshNode]

/-- C5 witness: a concrete leaf with anchor `(0, 0)` and incoming
particle `(1/200, 0)` (coincident), in the unit square. -/
theorem insert_coincident_keeps_anchor_witness :
    ((⟨fin (mkRat 1 200), fin 0⟩ : Pt).x.isNaN = false) ∧
      ((⟨fin (mkRat 1 200), fin 0⟩ : Pt).y.isNaN = false) ∧
      coincident ⟨fin 0, fin 0⟩ ⟨fin (mkRat 1 200), fin 0⟩ = true ∧
      insert 2 (QNode.mk true (some ⟨fin 0, fin 0⟩) none none none none)
          ⟨fin (mkRat 1 200), fin 0⟩ (fin 0) (fin 0) (fin 1) (fin 1) =
        some (QNode.mk false (some ⟨fin 0, fin 0⟩)
          (if quadIndex ⟨fin (mkRat 1 200), fin 0⟩ (fin 0) (fin 0) (fin 1) (fin 1) = 0 then
            some (QNode.mk true (some ⟨fin (mkRat 1 200), fin 0⟩) none none none none) else none)
          (if quadIndex ⟨fin (mkRat 1 200), fin 0⟩ (fin 0) (fin 0) (fin 1) (fin 1) = 1 then
            some (QNode.mk true (some ⟨fin (mkRat 1 200), fin 0⟩) none none none none) else none)
          (if quadIndex ⟨fin (mkRat 1 200), fin 0⟩ (fin 0) (fin 0) (fin 1) (fin 1) = 2 then
            some (QNode.mk true (some ⟨fin (mkRat 1 200), fin 0⟩) none none none none) else none)
          (if 3 ≤ quadIndex ⟨fin (mkRat 1 200), fin 0⟩ (fin 0) (fin 0) (fin 1) (fin 1) then
            some (QNode.mk true (some ⟨fin (mkRat 1 200), fin 0⟩) none none none none) else none),
          []) :=
  ⟨rfl, rfl, by decide,
    insert_coincident_keeps_anchor 0 ⟨fin 0, fin 0⟩ ⟨fin (mkRat 1 200), fin 0⟩
      (fin 0) (fin 0) (fin 1) (fin 1) rfl rfl (by decide)⟩

/-- C8: `insertChild` computes the quadrant index
`c = (p.x >= sx) + (p.y >= sy) * 2` with `sx`, `sy` the midpoints of
the bounds; `c` is in `0..3` and is mapped to child slot `c + 1`; the
node becomes non-leaf, the other three slots and the attached particle
are untouched; the recursive `insert` descends into the chosen child —
lazily created as a fresh node when the slot was empty — with the
bounds narrowed to exactly the chosen quadrant (`x1 ← sx` when
`p.x ≥ sx`, else `x2 ← sx`; `y1 ← sy` when `p.y ≥ sy`, else
`y2 ← sy`). -/
theorem insertChild_quadrant (fuel : ℕ) (n : QNode) (p : Pt)
    (x1 y1 x2 y2 : JSNum) (n' : QNode) (r : List Pt)
    (h : insertChild fuel n p x1 y1 x2 y2 = some (n', r)) :
    quadIndex p x1 y1 x2 y2 < 4 ∧
      n'.leaf = false ∧
      n'.pt = n.pt ∧
      (∀ i, 1 ≤ i → i ≤ 4 → i ≠ quadIndex p x1 y1 x2 y2 + 1 →
        n'.childSlot i = n.childSlot i) ∧
      ∃ ch, n'.childSlot (quadIndex p x1 y1 x2 y2 + 1) = some ch ∧
        insert fuel ((n.childSlot (quadIndex p x1 y1 x2 y2 + 1)).getD freshNode) p
          (if jge p.x (split x1 x2) then split x1 x2 else x1)
          (if jge p.y (split y1 y2) then split y1 y2 else y1)
          (if jge p.x (split x1 x2) then x2 else split x1 x2)
          (if jge p.y (split y1 y2) then y2 else split y1 y2) = some (ch, r) := by
  obtain ⟨l, pt, c1, c2, c3, c4⟩ := n
  cases h1 : jge p.x (split x1 x2) <;> cases h2 : jge p.y (split y1 y2) <;>
    [(have hc : quadIndex p x1 y1 x2 y2 = 0 := by simp [quadIndex, h1, h2]);
     (have hc : quadIndex p x1 y1 x2 y2 = 2 := by simp [quadIndex, h1, h2]);
     (have hc : quadIndex p x1 y1 x2 y2 = 1 := by simp [quadIndex, h1, h2]);
     (have hc : quadIndex p x1 y1 x2 y2 = 3 := by simp [quadIndex, h1, h2])] <;>
  ( simp only [insertChild, insertChildWith, hc, narrow] at h
    norm_num at h
    rw [hc]
    split at h
    · simp at h
    · rename_i ires ch r0 heq
      simp only [Option.some.injEq, Prod.mk.injEq] at h
      obtain ⟨rfl, rfl⟩ := h
      refine ⟨by norm_num, rfl, rfl, ?_, ch, rfl, ?_⟩
      · intro i hi1 hi2 hi3
        interval_cases i <;>
          simp_all [QNode.childSlot, QNode.c1, QNode.c2, QNode.c3, QNode.c4]
      · simp only [h1, h2, if_true, if_false, Bool.false_eq_true,
          QNode.childSlot, QNode.c1, QNode.c2, QNode.c3, QNode.c4]
        exact heq)

/-- C8 witness: the particle `(3/4, 1/4)` in the unit square goes to
quadrant index 1 (slot `c2`), lazily creating the child. -/
theorem insertChild_quadrant_witness :
    insertChild 1 freshNode ⟨fin (mkRat 3 4), fin (mkRat 1 4)⟩
        (fin 0) (fin 0) (fin 1) (fin 1) =
      some (QNode.mk false none none
        (some (QNode.mk true (some ⟨fin (mkRat 3 4), fin (mkRat 1 4)⟩)
          none none none none)) none none, []) ∧
      (quadIndex ⟨fin (mkRat 3 4), fin (mkRat 1 4)⟩ (fin 0) (fin 0) (fin 1) (fin 1) < 4 ∧
        (QNode.mk false none none
          (some (QNode.mk true (some ⟨fin (mkRat 3 4), fin (mkRat 1 4)⟩)
            none none none none)) none none).leaf = false ∧
        (QNode.mk false none none
          (some (QNode.mk true (some ⟨fin (mkRat 3 4), fin (mkRat 1 4)⟩)
            none none none none)) none none).pt = freshNode.pt ∧
        (∀ i, 1 ≤ i → i ≤ 4 →
          i ≠ quadIndex ⟨fin (mkRat 3 4), fin (mkRat 1 4)⟩ (fin 0) (fin 0) (fin 1) (fin 1) + 1 →
          (QNode.mk false none none
            (some (QNode.mk true (some ⟨fin (mkRat 3 4), fin (mkRat 1 4)⟩)
              none none none none)) none none).childSlot i = freshNode.childSlot i) ∧
        ∃ ch, (QNode.mk false none none
            (some (QNode.mk true (some ⟨fin (mkRat 3 4), fin (mkRat 1 4)⟩)
              none none none none)) none none).childSlot
            (quadIndex ⟨fin (mkRat 3 4), fin (mkRat 1 4)⟩ (fin 0) (fin 0) (fin 1) (fin 1) + 1) =
            some ch ∧
          insert 1 ((freshNode.childSlot
              (quadIndex ⟨fin (mkRat 3 4), fin (mkRat 1 4)⟩ (fin 0) (fin 0) (fin 1) (fin 1) + 1)).getD
              freshNode)
            ⟨fin (mkRat 3 4), fin (mkRat 1 4)⟩
            (if jge (fin (mkRat 3 4)) (split (fin 0) (fin 1)) then split (fin 0) (fin 1) else fin 0)
            (if jge (fin (mkRat 1 4)) (split (fin 0) (fin 1)) then split (fin 0) (fin 1) else fin 0)
            (if jge (fin (mkRat 3 4)) (split (fin 0) (fin 1)) then fin 1 else split (fin 0) (fin 1))
            (if jge (fin (mkRat 1 4)) (split (fin 0) (fin 1)) then fin 1 else split (fin 0) (fin 1)) =
            some (ch, [])) :=
  ⟨rfl, insertChild_quadrant 1 freshNode ⟨fin (mkRat 3 4), fin (mkRat 1 4)⟩
    (fin 0) (fin 0) (fin 1) (fin 1) _ _ rfl⟩

/-- Unfolding lemma for `nonleafInv` on a node constructor. -/
theorem nonleafInv_mk (l : Bool) (pt : Option Pt) (c1 c2 c3 c4 : Option QNode) :
    nonleafInv (QNode.mk l pt c1 c2 c3 c4) =
      ((l || c1.isSome || c2.isSome || c3.isSome || c4.isSome) &&
        nlInvO c1 && nlInvO c2 && nlInvO c3 && nlInvO c4) := by
  cases c1 <;> cases c2 <;> cases c3 <;> cases c4 <;> rfl

/-- `nonleafInv` never looks at the attached particle. -/
theorem nonleafInv_pt_irrel (l : Bool) (a b : Option Pt) (c1 c2 c3 c4 : Option QNode) :
    nonleafInv (QNode.mk l a c1 c2 c3 c4) = nonleafInv (QNode.mk l b c1 c2 c3 c4) := by
  rw [nonleafInv_mk, nonleafInv_mk]

/-- One `insert` step preserves the non-leaf invariant. -/
theorem insert_nonleafInv : ∀ (f : ℕ) (n : QNode) (p : Pt) (x1 y1 x2 y2 : JSNum)
    (n' : QNode) (r : List Pt),
    insert f n p x1 y1 x2 y2 = some (n', r) → nonleafInv n = true → nonleafInv n' = true := by
  intro f
  induction f with
  | zero =>
    intro n p x1 y1 x2 y2 n' r h
    simp [insert] at h
  | succ f IH =>
    have hsub : ∀ (n : QNode) (p : Pt) (x1 y1 x2 y2 : JSNum) (n' : QNode) (r : List Pt),
        insertChildWith (insert f) n p x1 y1 x2 y2 = some (n', r) →
        nonleafInv n = true → nonleafInv n' = true := by
      intro n p x1 y1 x2 y2 n' r h hinv
      obtain ⟨l, pt, c1, c2, c3, c4⟩ := n
      simp only [insertChildWith, QNode.c1, QNode.c2, QNode.c3, QNode.c4, QNode.pt] at h
      rw [nonleafInv_mk] at hinv
      simp only [Bool.and_eq_true, and_assoc] at hinv
      obtain ⟨-, hv1, hv2, hv3, hv4⟩ := hinv
      have hfresh : nonleafInv freshNode = true := rfl
      have hgetD : ∀ o : Option QNode, nlInvO o = true →
          nonleafInv (o.getD freshNode) = true := by
        intro o ho
        cases o with
        | none => exact hfresh
        | some m => exact ho
      split at h <;> split at h <;>
        first
        | exact Option.noConfusion h
        | (rename_i ires ch r0 heq
           simp only [Option.some.injEq, Prod.mk.injEq] at h
           obtain ⟨rfl, rfl⟩ := h
           have hch : nonleafInv ch = true := by
             refine IH _ _ _ _ _ _ _ _ heq ?_
             first
             | exact hgetD c1 hv1
             | exact hgetD c2 hv2
             | exact hgetD c3 hv3
             | exact hgetD c4 hv4
           rw [nonleafInv_mk]
           simp [show nlInvO (some ch) = nonleafInv ch from rfl, hch, hv1, hv2, hv3, hv4])
    intro n p x1 y1 x2 y2 n' r h hinv
    obtain ⟨l, pt, c1, c2, c3, c4⟩ := n
    by_cases hnan : (p.x.isNaN || p.y.isNaN) = true
    · simp only [insert, if_pos hnan, Option.some.injEq, Prod.mk.injEq] at h
      obtain ⟨rfl, rfl⟩ := h
      exact hinv
    · cases l with
      | false =>
        simp only [insert, if_neg hnan, QNode.leaf, Bool.false_eq_true, if_false] at h
        exact hsub _ _ _ _ _ _ _ _ h hinv
      | true =>
        cases pt with
        | none =>
          simp only [insert, if_neg hnan, QNode.leaf, QNode.pt, QNode.c1, QNode.c2,
            QNode.c3, QNode.c4, if_true, Option.some.injEq, Prod.mk.injEq] at h
          obtain ⟨rfl, rfl⟩ := h
          rw [nonleafInv_pt_irrel true (some p) none]
          exact hinv
        | some q =>
          by_cases hco : coincident q p = true
          · simp only [insert, if_neg hnan, QNode.leaf, QNode.pt, if_true, if_pos hco] at h
            exact hsub _ _ _ _ _ _ _ _ h hinv
          · simp only [insert, if_neg hnan, QNode.leaf, QNode.pt, QNode.c1, QNode.c2,
              QNode.c3, QNode.c4, if_true, if_neg hco] at h
            rcases h1 : insertChildWith (insert f) (QNode.mk true none c1 c2 c3 c4) q x1 y1 x2 y2
              with - | ⟨n1, r1⟩ <;> rw [h1] at h <;> simp at h
            rcases h2 : insertChildWith (insert f) n1 p x1 y1 x2 y2
              with - | ⟨n2, r2⟩ <;> rw [h2] at h <;> simp at h
            obtain ⟨rfl, rfl⟩ := h
            have hinv1 : nonleafInv n1 = true := by
              refine hsub _ _ _ _ _ _ _ _ h1 ?_
              rw [nonleafInv_pt_irrel true none (some q)]
              exact hinv
            exact hsub _ _ _ _ _ _ _ _ h2 hinv1

/-- The insertion loop preserves the non-leaf invariant from any
starting node. -/
theorem insertPoints_nonleafInv (fuel : ℕ) (x1 y1 x2 y2 : JSNum) :
    ∀ (l : List Pt) (n : QNode) (rs : List Pt), nonleafInv n = true →
    (insertPoints fuel x1 y1 x2 y2 n rs l).all (fun z => nonleafInv z.1) = true := by
  intro l
  induction l with
  | nil =>
    intro n rs hinv
    simpa [insertPoints, Option.all] using hinv
  | cons p l IH =>
    intro n rs hinv
    simp only [insertPoints]
    rcases hins : insert fuel n p x1 y1 x2 y2 with - | ⟨n1, r⟩
    · simp [Option.all]
    · exact IH n1 (rs ++ r) (insert_nonleafInv fuel n p x1 y1 x2 y2 n1 r hins hinv)

/-- C4: for every fuel, bounds, particle sequence and step count `k`,
the tree state after inserting the first `k` particles into the
unconditionally acquired fresh root (exactly what the constructor does;
`k = ps.length` is the finished build) satisfies the documented
invariant: every node with `leaf == false` has at least one non-null
child slot.  (`Option.all` makes the property vacuously true when the
modelling fuel runs out.) -/
theorem build_nonleafInv (fuel : ℕ) (x1 y1 x2 y2 : JSNum) (ps : List Pt) (k : ℕ) :
    (insertPoints fuel x1 y1 x2 y2 freshNode [] (ps.take k)).all
      (fun z => nonleafInv z.1) = true :=
  insertPoints_nonleafInv fuel x1 y1 x2 y2 (ps.take k) freshNode [] rfl

set_option maxHeartbeats 1000000 in
/-- Unfolding lemma for `walkHolds` on a node constructor. -/
theorem walkHolds_mk (p : Pt) (l : Bool) (pt : Option Pt) (c1 c2 c3 c4 : Option QNode)
    (x1 y1 x2 y2 : JSNum) :
    walkHolds p (QNode.mk l pt c1 c2 c3 c4) x1 y1 x2 y2 =
      (if pt = some p then true
       else if l then false
       else
         walkO p
           (match quadIndex p x1 y1 x2 y2 with
            | 0 => c1
            | 1 => c2
            | 2 => c3
            | _ => c4)
           (narrow (quadIndex p x1 y1 x2 y2) x1 y1 x2 y2).1
           (narrow (quadIndex p x1 y1 x2 y2) x1 y1 x2 y2).2.1
           (narrow (quadIndex p x1 y1 x2 y2) x1 y1 x2 y2).2.2.1
           (narrow (quadIndex p x1 y1 x2 y2) x1 y1 x2 y2).2.2.2) := by
  rw [walkHolds.eq_def]
  by_cases hp : pt = some p
  · simp [hp]
  · cases l with
    | true => simp [hp]
    | false =>
      rcases hq : quadIndex p x1 y1 x2 y2 with _ | _ | _ | k <;>
        simp only [hp, hq, if_false, Bool.false_eq_true] <;>
        [cases c1; cases c2; cases c3; cases c4] <;>
        simp [walkO]

/-- After `insertChild` (at recursion budget `f`, given the statement
for `insert f`), the inserted particle is reachable by the recomputed
quadrant walk. -/
theorem insertChildWith_walk (f : ℕ)
    (IH : ∀ (n : QNode) (p : Pt) (x1 y1 x2 y2 : JSNum) (n' : QNode) (r : List Pt),
      insert f n p x1 y1 x2 y2 = some (n', r) →
      p.x.isNaN = false → p.y.isNaN = false →
      walkHolds p n' x1 y1 x2 y2 = true) :
    ∀ (n : QNode) (p : Pt) (x1 y1 x2 y2 : JSNum) (n' : QNode) (r : List Pt),
      insertChildWith (insert f) n p x1 y1 x2 y2 = some (n', r) →
      p.x.isNaN = false → p.y.isNaN = false →
      walkHolds p n' x1 y1 x2 y2 = true := by
  intro n p x1 y1 x2 y2 n' r h hx hy
  obtain ⟨l, pt, c1, c2, c3, c4⟩ := n
  rcases hq : quadIndex p x1 y1 x2 y2 with _ | _ | _ | k <;>
    simp only [insertChildWith, hq, QNode.c1, QNode.c2, QNode.c3, QNode.c4, QNode.pt] at h <;>
    split at h <;>
    first
    | exact Option.noConfusion h
    | (rename_i ires ch r0 heq
       simp only [Option.some.injEq, Prod.mk.injEq] at h
       obtain ⟨rfl, rfl⟩ := h
       rw [walkHolds_mk]
       by_cases hp : pt = some p
       · simp [hp]
       · simp only [hp, if_false, Bool.false_eq_true, hq]
         simp only [walkO]
         exact IH _ _ _ _ _ _ _ _ heq hx hy)

/-- After a successful `insert`, the inserted (non-NaN) particle is
reachable from the node by the recomputed quadrant walk. -/
theorem insert_walk : ∀ (f : ℕ) (n : QNode) (p : Pt) (x1 y1 x2 y2 : JSNum)
    (n' : QNode) (r : List Pt),
    insert f n p x1 y1 x2 y2 = some (n', r) →
    p.x.isNaN = false → p.y.isNaN = false →
    walkHolds p n' x1 y1 x2 y2 = true := by
  intro f
  induction f with
  | zero =>
    intro n p x1 y1 x2 y2 n' r h
    simp [insert] at h
  | succ f IH =>
    intro n p x1 y1 x2 y2 n' r h hx hy
    obtain ⟨l, pt, c1, c2, c3, c4⟩ := n
    have hnan : (p.x.isNaN || p.y.isNaN) = true → False := by
      rw [hx, hy]
      simp
    by_cases hna : (p.x.isNaN || p.y.isNaN) = true
    · exact absurd hna hnan
    · cases l with
      | false =>
        simp only [insert, if_neg hna, QNode.leaf, Bool.false_eq_true, if_false] at h
        exact insertChildWith_walk f IH _ _ _ _ _ _ _ _ h hx hy
      | true =>
        cases pt with
        | none =>
          simp only [insert, if_neg hna, QNode.leaf, QNode.pt, QNode.c1, QNode.c2,
            QNode.c3, QNode.c4, if_true, Option.some.injEq, Prod.mk.injEq] at h
          obtain ⟨rfl, rfl⟩ := h
          rw [walkHolds_mk]
          simp
        | some q =>
          by_cases hco : coincident q p = true
          · simp only [insert, if_neg hna, QNode.leaf, QNode.pt, if_true, if_pos hco] at h
            exact insertChildWith_walk f IH _ _ _ _ _ _ _ _ h hx hy
          · simp only [insert, if_neg hna, QNode.leaf, QNode.pt, QNode.c1, QNode.c2,
              QNode.c3, QNode.c4, if_true, if_neg hco] at h
            rcases h1 : insertChildWith (insert f) (QNode.mk true none c1 c2 c3 c4) q x1 y1 x2 y2
              with - | ⟨n1, r1⟩ <;> rw [h1] at h <;> simp at h
            rcases h2 : insertChildWith (insert f) n1 p x1 y1 x2 y2
              with - | ⟨n2, r2⟩ <;> rw [h2] at h <;> simp at h
            obtain ⟨rfl, rfl⟩ := h
            exact insertChildWith_walk f IH _ _ _ _ _ _ _ _ h2 hx hy

/-- The quadrant index is always one of 0, 1, 2, 3. -/
theorem quadIndex_lt4 (p : Pt) (x1 y1 x2 y2 : JSNum) : quadIndex p x1 y1 x2 y2 < 4 := by
  unfold quadIndex
  by_cases h1 : jge p.x (split x1 x2) = true <;>
    by_cases h2 : jge p.y (split y1 y2) = true <;>
    simp [h1, h2]

/-- `insertChild` (at budget `f`, given preservation for `insert f`)
preserves reachability-by-walk of every non-NaN particle already in the
tree. -/
theorem insertChildWith_preserve (f : ℕ)
    (IHP : ∀ (n : QNode) (p : Pt) (x1 y1 x2 y2 : JSNum) (n' : QNode) (r : List Pt),
      insert f n p x1 y1 x2 y2 = some (n', r) →
      ∀ w : Pt, w.x.isNaN = false → w.y.isNaN = false →
      walkHolds w n x1 y1 x2 y2 = true → walkHolds w n' x1 y1 x2 y2 = true) :
    ∀ (n : QNode) (p : Pt) (x1 y1 x2 y2 : JSNum) (n' : QNode) (r : List Pt),
      insertChildWith (insert f) n p x1 y1 x2 y2 = some (n', r) →
      ∀ w : Pt, w.x.isNaN = false → w.y.isNaN = false →
      walkHolds w n x1 y1 x2 y2 = true → walkHolds w n' x1 y1 x2 y2 = true := by
  intro n p x1 y1 x2 y2 n' r h w hwx hwy hw
  obtain ⟨l, pt, c1, c2, c3, c4⟩ := n
  rcases hq : quadIndex p x1 y1 x2 y2 with _ | _ | _ | k <;>
    (try (have hk0 : k = 0 := by
            have h4 := quadIndex_lt4 p x1 y1 x2 y2
            omega
          subst hk0)) <;>
    simp only [insertChildWith, hq, QNode.c1, QNode.c2, QNode.c3, QNode.c4, QNode.pt] at h <;>
    split at h <;>
    first
    | exact Option.noConfusion h
    | (rename_i ires ch r0 heq
       simp only [Option.some.injEq, Prod.mk.injEq] at h
       obtain ⟨rfl, rfl⟩ := h
       rw [walkHolds_mk] at hw ⊢
       by_cases hp : pt = some w
       · simp [hp]
       · simp only [hp, if_false, Bool.false_eq_true] at hw ⊢
         cases l with
         | true => simp at hw
         | false =>
           simp only [if_false, Bool.false_eq_true, if_true] at hw ⊢
           rcases hqw : quadIndex w x1 y1 x2 y2 with _ | _ | _ | j <;>
             (try (have hj0 : j = 0 := by
                     have h4 := quadIndex_lt4 w x1 y1 x2 y2
                     omega
                   subst hj0)) <;>
             simp only [hqw] at hw ⊢ <;>
             first
             | exact hw
             | (cases c1 with
                | none => simp [walkO] at hw
                | some m => exact IHP _ _ _ _ _ _ _ _ heq w hwx hwy hw)
             | (cases c2 with
                | none => simp [walkO] at hw
                | some m => exact IHP _ _ _ _ _ _ _ _ heq w hwx hwy hw)
             | (cases c3 with
                | none => simp [walkO] at hw
                | some m => exact IHP _ _ _ _ _ _ _ _ heq w hwx hwy hw)
             | (cases c4 with
                | none => simp [walkO] at hw
                | some m => exact IHP _ _ _ _ _ _ _ _ heq w hwx hwy hw))

/-- A successful `insert` never loses a previously reachable non-NaN
particle: the recomputed quadrant walk still finds it afterwards. -/
theorem insert_preserve : ∀ (f : ℕ) (n : QNode) (p : Pt) (x1 y1 x2 y2 : JSNum)
    (n' : QNode) (r : List Pt),
    insert f n p x1 y1 x2 y2 = some (n', r) →
    ∀ w : Pt, w.x.isNaN = false → w.y.isNaN = false →
    walkHolds w n x1 y1 x2 y2 = true → walkHolds w n' x1 y1 x2 y2 = true := by
  intro f
  induction f with
  | zero =>
    intro n p x1 y1 x2 y2 n' r h
    simp [insert] at h
  | succ f IH =>
    intro n p x1 y1 x2 y2 n' r h w hwx hwy hw
    obtain ⟨l, pt, c1, c2, c3, c4⟩ := n
    by_cases hna : (p.x.isNaN || p.y.isNaN) = true
    · simp only [insert, if_pos hna, Option.some.injEq, Prod.mk.injEq] at h
      obtain ⟨rfl, rfl⟩ := h
      exact hw
    · cases l with
      | false =>
        simp only [insert, if_neg hna, QNode.leaf, Bool.false_eq_true, if_false] at h
        exact insertChildWith_preserve f IH _ _ _ _ _ _ _ _ h w hwx hwy hw
      | true =>
        cases pt with
        | none =>
          simp only [insert, if_neg hna, QNode.leaf, QNode.pt, QNode.c1, QNode.c2,
            QNode.c3, QNode.c4, if_true, Option.some.injEq, Prod.mk.injEq] at h
          obtain ⟨rfl, rfl⟩ := h
          rw [walkHolds_mk] at hw
          simp at hw
        | some q =>
          by_cases hco : coincident q p = true
          · simp only [insert, if_neg hna, QNode.leaf, QNode.pt, if_true, if_pos hco] at h
            exact insertChildWith_preserve f IH _ _ _ _ _ _ _ _ h w hwx hwy hw
          · simp only [insert, if_neg hna, QNode.leaf, QNode.pt, QNode.c1, QNode.c2,
              QNode.c3, QNode.c4, if_true, if_neg hco] at h
            rcases h1 : insertChildWith (insert f) (QNode.mk true none c1 c2 c3 c4) q x1 y1 x2 y2
              with - | ⟨n1, r1⟩ <;> rw [h1] at h <;> simp at h
            rcases h2 : insertChildWith (insert f) n1 p x1 y1 x2 y2
              with - | ⟨n2, r2⟩ <;> rw [h2] at h <;> simp at h
            obtain ⟨rfl, rfl⟩ := h
            rw [walkHolds_mk] at hw
            by_cases hp : (some q : Option Pt) = some w
            · obtain rfl : q = w := Option.some.inj hp
              have hq1 : walkHolds q n1 x1 y1 x2 y2 = true :=
                insertChildWith_walk f (insert_walk f) _ _ _ _ _ _ _ _ h1 hwx hwy
              exact insertChildWith_preserve f IH _ _ _ _ _ _ _ _ h2 q hwx hwy hq1
            · simp [hp] at hw

/-- The insertion loop preserves reachability of earlier particles and
establishes reachability of every non-NaN particle it inserts. -/
theorem insertPoints_walk (fuel : ℕ) (x1 y1 x2 y2 : JSNum) :
    ∀ (l : List Pt) (n : QNode) (rs : List Pt) (n' : QNode) (rs' : List Pt),
      insertPoints fuel x1 y1 x2 y2 n rs l = some (n', rs') →
      (∀ w : Pt, w.x.isNaN = false → w.y.isNaN = false →
        walkHolds w n x1 y1 x2 y2 = true → walkHolds w n' x1 y1 x2 y2 = true) ∧
      (∀ p ∈ l, p.x.isNaN = false → p.y.isNaN = false →
        walkHolds p n' x1 y1 x2 y2 = true) := by
  intro l
  induction l with
  | nil =>
    intro n rs n' rs' h
    simp only [insertPoints, Option.some.injEq, Prod.mk.injEq] at h
    obtain ⟨rfl, rfl⟩ := h
    exact ⟨fun w _ _ hw => hw, by simp⟩
  | cons p l IHl =>
    intro n rs n' rs' h
    simp only [insertPoints] at h
    rcases hins : insert fuel n p x1 y1 x2 y2 with - | ⟨n1, r⟩ <;> rw [hins] at h
    · exact Option.noConfusion h
    · constructor
      · intro w hwx hwy hw
        exact (IHl _ _ _ _ h).1 w hwx hwy
          (insert_preserve fuel _ _ _ _ _ _ _ _ hins w hwx hwy hw)
      · intro p' hp' hx' hy'
        rcases List.mem_cons.1 hp' with rfl | hmem
        · exact (IHl _ _ _ _ h).1 p' hx' hy'
            (insert_walk fuel _ _ _ _ _ _ _ _ hins hx' hy')
        · exact (IHl _ _ _ _ h).2 p' hmem hx' hy'

/-- C1: every particle with non-NaN coordinates that was inserted during
a completed build is found again by walking the tree from the root,
recomputing the quadrant decision at each level from the particle's own
coordinates (split at the midpoints, narrowing the bounds each step,
exactly as `insertChild` does) — the walk reaches the node directly
holding the particle or stops at a coincidence-anchor ancestor on that
path holding it.  (`Option.all` makes the statement vacuous when the
modelling fuel runs out: the claim quantifies over completed builds.) -/
theorem build_containment (fuel : ℕ) (ps : List Pt) (p : Pt)
    (hmem : p ∈ ps) (hx : p.x.isNaN = false) (hy : p.y.isNaN = false) :
    (build fuel ps).all
      (fun t => walkHolds p t.root t.xMin t.yMin t.xMax t.yMax) = true := by
  rcases hsb : scanBounds ps with ⟨x1, y1, x2, y2⟩
  rcases hsq : squarify x1 y1 x2 y2 with ⟨sx1, sy1, sx2, sy2⟩
  simp only [build, hsb, hsq]
  rcases hip : insertPoints fuel sx1 sy1 sx2 sy2 freshNode [] ps with - | ⟨rt, rej⟩ <;>
    simp only [hip]
  · rfl
  · simp only [Option.all]
    exact (insertPoints_walk fuel sx1 sy1 sx2 sy2 ps freshNode [] rt rej hip).2 p hmem hx hy

/-- C1 witness: both corner particles of a two-particle build are found
by the recomputed walk. -/
theorem build_containment_witness :
    (⟨fin 10, fin 0⟩ : Pt) ∈ ([⟨fin 0, fin 0⟩, ⟨fin 10, fin 0⟩] : List Pt) ∧
      (⟨fin 10, fin 0⟩ : Pt).x.isNaN = false ∧
      (⟨fin 10, fin 0⟩ : Pt).y.isNaN = false ∧
      (build 30 [⟨fin 0, fin 0⟩, ⟨fin 10, fin 0⟩]).all
        (fun t => walkHolds ⟨fin 10, fin 0⟩ t.root t.xMin t.yMin t.xMax t.yMax) = true :=
  ⟨by decide, rfl, rfl,
    build_containment 30 [⟨fin 0, fin 0⟩, ⟨fin 10, fin 0⟩] ⟨fin 10, fin 0⟩
      (by decide) rfl rfl⟩

/-- Unfolding lemma for `dispose` on a node constructor. -/
theorem dispose_mk (i : ℕ) (l : Bool) (pt : Option Pt) (c1 c2 c3 c4 : Option HNode)
    (cache : List PoolNode) :
    dispose (HNode.mk i l pt c1 c2 c3 c4) cache =
      ⟨i, true, none, none, none, none, none⟩ ::
        disposeO c4 (disposeO c3 (disposeO c2 (disposeO c1 cache))) := by
  cases c1 <;> cases c2 <;> cases c3 <;> cases c4 <;> rfl

/-- Unfolding lemma for `hCount` on a node constructor. -/
theorem hCount_mk (i : ℕ) (l : Bool) (pt : Option Pt) (c1 c2 c3 c4 : Option HNode) :
    hCount (HNode.mk i l pt c1 c2 c3 c4) =
      1 + hCountO c1 + hCountO c2 + hCountO c3 + hCountO c4 := by
  cases c1 <;> cases c2 <;> cases c3 <;> cases c4 <;> rfl

/-- Unfolding lemma for `hIds` on a node constructor. -/
theorem hIds_mk (i : ℕ) (l : Bool) (pt : Option Pt) (c1 c2 c3 c4 : Option HNode) :
    hIds (HNode.mk i l pt c1 c2 c3 c4) =
      {i} + hIdsO c1 + hIdsO c2 + hIdsO c3 + hIdsO c4 := by
  cases c1 <;> cases c2 <;> cases c3 <;> cases c4 <;> rfl

/-- `dispose` pushes exactly the tree's nodes, cleared, on the front of
the free list: one entry per node, carrying the tree's identities. -/
theorem dispose_spec : ∀ (t : HNode) (cache : List PoolNode),
    ∃ l, dispose t cache = l ++ cache ∧ l.length = hCount t ∧
      (↑(l.map PoolNode.id) : Multiset ℕ) = hIds t ∧ ∀ e ∈ l, clearedPool e
  | HNode.mk i lf pt c1 c2 c3 c4, cache => by
    obtain ⟨l1, e1, ln1, id1, g1⟩ :
        ∃ lo, disposeO c1 cache = lo ++ cache ∧ lo.length = hCountO c1 ∧
          (↑(lo.map PoolNode.id) : Multiset ℕ) = hIdsO c1 ∧ ∀ e ∈ lo, clearedPool e := by
      cases c1 with
      | none => exact ⟨[], rfl, rfl, rfl, by simp⟩
      | some m => exact dispose_spec m cache
    obtain ⟨l2, e2, ln2, id2, g2⟩ :
        ∃ lo, disposeO c2 (l1 ++ cache) = lo ++ (l1 ++ cache) ∧ lo.length = hCountO c2 ∧
          (↑(lo.map PoolNode.id) : Multiset ℕ) = hIdsO c2 ∧ ∀ e ∈ lo, clearedPool e := by
      cases c2 with
      | none => exact ⟨[], rfl, rfl, rfl, by simp⟩
      | some m => exact dispose_spec m (l1 ++ cache)
    obtain ⟨l3, e3, ln3, id3, g3⟩ :
        ∃ lo, disposeO c3 (l2 ++ (l1 ++ cache)) = lo ++ (l2 ++ (l1 ++ cache)) ∧
          lo.length = hCountO c3 ∧
          (↑(lo.map PoolNode.id) : Multiset ℕ) = hIdsO c3 ∧ ∀ e ∈ lo, clearedPool e := by
      cases c3 with
      | none => exact ⟨[], rfl, rfl, rfl, by simp⟩
      | some m => exact dispose_spec m (l2 ++ (l1 ++ cache))
    obtain ⟨l4, e4, ln4, id4, g4⟩ :
        ∃ lo, disposeO c4 (l3 ++ (l2 ++ (l1 ++ cache))) = lo ++ (l3 ++ (l2 ++ (l1 ++ cache))) ∧
          lo.length = hCountO c4 ∧
          (↑(lo.map PoolNode.id) : Multiset ℕ) = hIdsO c4 ∧ ∀ e ∈ lo, clearedPool e := by
      cases c4 with
      | none => exact ⟨[], rfl, rfl, rfl, by simp⟩
      | some m => exact dispose_spec m (l3 ++ (l2 ++ (l1 ++ cache)))
    refine ⟨⟨i, true, none, none, none, none, none⟩ :: (l4 ++ (l3 ++ (l2 ++ l1))), ?_, ?_, ?_, ?_⟩
    · rw [dispose_mk, e1, e2, e3, e4]
      simp
    · simp only [List.length_cons, List.length_append, ln1, ln2, ln3, ln4, hCount_mk]
      omega
    · simp only [List.map_cons, List.map_append, hIds_mk, ← id1, ← id2, ← id3, ← id4,
        ← Multiset.cons_coe, ← Multiset.coe_add]
      rw [← Multiset.singleton_add]
      simp [add_comm, add_left_comm, add_assoc]
    · intro e he
      rcases List.mem_cons.1 he with rfl | hrest
      · exact ⟨rfl, rfl, rfl, rfl, rfl, rfl⟩
      · rcases List.mem_append.1 hrest with h4 | hr2
        · exact g4 e h4
        · rcases List.mem_append.1 hr2 with h3 | hr3
          · exact g3 e h3
          · rcases List.mem_append.1 hr3 with h2 | h1
            · exact g2 e h2
            · exact g1 e h1

/-- Acquiring exactly as many nodes as were just pushed pops them in
order, leaves the rest of the free list untouched and allocates
nothing. -/
theorem acquireN_append : ∀ (l cache : List PoolNode) (fresh : ℕ),
    acquireN l.length (l ++ cache) fresh = (l, cache, fresh, 0) := by
  intro l
  induction l with
  | nil =>
    intro cache fresh
    rfl
  | cons e l IH =>
    intro cache fresh
    simp [acquireN, acquire, IH]

/-- C7: after disposing any tree with `K = hCount t` nodes onto the free
list, the next `K` calls to `node()` return exactly the tree's `K` node
instances (the identity multiset is preserved) in some order, drawn
purely from the free list — the rest of the list and the fresh-node
counter are untouched and zero fresh allocations happen — and every
returned node is reset: `leaf = true`, no particle, all four child
references null. -/
theorem pool_roundtrip (t : HNode) (cache : List PoolNode) (fresh : ℕ) :
    ∃ acquired,
      acquireN (hCount t) (dispose t cache) fresh = (acquired, cache, fresh, 0) ∧
      acquired.length = hCount t ∧
      (↑(acquired.map PoolNode.id) : Multiset ℕ) = hIds t ∧
      ∀ e ∈ acquired, clearedPool e := by
  obtain ⟨l, he, hl, hi, hc⟩ := dispose_spec t cache
  refine ⟨l, ?_, hl, hi, hc⟩
  rw [he, ← hl, acquireN_append]

/-- `insert` on a NaN particle leaves the node unchanged and reports
the particle (the source's `fail()` guard). -/
theorem insert_nan (f : ℕ) (n : QNode) (p : Pt) (x1 y1 x2 y2 : JSNum)
    (hp : (p.x.isNaN || p.y.isNaN) = true) :
    insert (f + 1) n p x1 y1 x2 y2 = some (n, [p]) := by
  simp [insert, hp]

/-- The insertion loop splits over list append. -/
theorem insertPoints_append (fuel : ℕ) (x1 y1 x2 y2 : JSNum) :
    ∀ (l1 l2 : List Pt) (n : QNode) (rs : List Pt),
      insertPoints fuel x1 y1 x2 y2 n rs (l1 ++ l2) =
        match insertPoints fuel x1 y1 x2 y2 n rs l1 with
        | none => none
        | some (n1, rs1) => insertPoints fuel x1 y1 x2 y2 n1 rs1 l2 := by
  intro l1
  induction l1 with
  | nil =>
    intro l2 n rs
    rfl
  | cons q l1 IH =>
    intro l2 n rs
    simp only [List.cons_append, insertPoints]
    rcases insert fuel n q x1 y1 x2 y2 with - | ⟨n1, r⟩
    · rfl
    · exact IH l2 n1 (rs ++ r)

/-- The rejected-particle accumulator only grows by appending: the loop
result is independent of it. -/
theorem insertPoints_acc (fuel : ℕ) (x1 y1 x2 y2 : JSNum) :
    ∀ (l : List Pt) (n : QNode) (rs : List Pt),
      insertPoints fuel x1 y1 x2 y2 n rs l =
        match insertPoints fuel x1 y1 x2 y2 n [] l with
        | none => none
        | some (n1, ext) => some (n1, rs ++ ext) := by
  intro l
  induction l with
  | nil =>
    intro n rs
    simp [insertPoints]
  | cons q l IH =>
    intro n rs
    simp only [insertPoints]
    rcases insert fuel n q x1 y1 x2 y2 with - | ⟨n1, r⟩
    · rfl
    · dsimp only
      rw [IH n1 (rs ++ r), IH n1 ([] ++ r)]
      rcases insertPoints fuel x1 y1 x2 y2 n1 [] l with - | ⟨n2, ext⟩
      · rfl
      · dsimp only
        simp

/-- `build` unfolded through given scan and squarify results. -/
theorem build_eq (fuel : ℕ) (ps : List Pt) (x1 y1 x2 y2 sx1 sy1 sx2 sy2 : JSNum)
    (hsb : scanBounds ps = (x1, y1, x2, y2))
    (hsq : squarify x1 y1 x2 y2 = (sx1, sy1, sx2, sy2)) :
    build fuel ps =
      match insertPoints fuel sx1 sy1 sx2 sy2 freshNode [] ps with
      | none => none
      | some (r, rej) => some ⟨r, sx1, sy1, sx2, sy2, rej⟩ := by
  rw [build, hsb]
  dsimp only
  rw [hsq]

/-- C2, amended: for every particle `p` with a NaN coordinate,
unconditionally — in particular for `x = NaN` with a finite `y`, which
still feeds the bounds scan —
(i) `p`'s insertion step drops it: it leaves the tree state untouched,
appends `p` to the rejected list, and the loop continues with the
remaining particles;
(ii) the whole build never aborts because of `p`: its result (root and
completion) is exactly the insertion of the remaining particles
`ps1 ++ ps2` under the bounds scanned *with* `p`;
(iii) whenever the build completes, `p` is reported in the rejected
list;
(iv) *provided* `p` leaves the bounds scan unchanged (e.g. both
coordinates NaN), the finished tree's root, node count and stored
bounds are identical to the build without `p`.  (Without that proviso
the structure-identity part is false — see the counterexample.) -/
theorem build_nan_dropped (fuel : ℕ) (ps1 ps2 : List Pt) (p : Pt)
    (hp : (p.x.isNaN || p.y.isNaN) = true) :
    (∀ (x1 y1 x2 y2 : JSNum) (n : QNode) (rs : List Pt),
      insertPoints (fuel + 1) x1 y1 x2 y2 n rs (p :: ps2) =
        insertPoints (fuel + 1) x1 y1 x2 y2 n (rs ++ [p]) ps2) ∧
    (∀ (x1 y1 x2 y2 sx1 sy1 sx2 sy2 : JSNum),
      scanBounds (ps1 ++ p :: ps2) = (x1, y1, x2, y2) →
      squarify x1 y1 x2 y2 = (sx1, sy1, sx2, sy2) →
      (build (fuel + 1) (ps1 ++ p :: ps2)).map QTree.root =
        (insertPoints (fuel + 1) sx1 sy1 sx2 sy2 freshNode []
            (ps1 ++ ps2)).map (fun z => z.1)) ∧
    (∀ t1, build (fuel + 1) (ps1 ++ p :: ps2) = some t1 → p ∈ t1.rejected) ∧
    (scanBounds (ps1 ++ p :: ps2) = scanBounds (ps1 ++ ps2) →
      ∀ t2, build (fuel + 1) (ps1 ++ ps2) = some t2 →
      ∃ t1, build (fuel + 1) (ps1 ++ p :: ps2) = some t1 ∧
        t1.root = t2.root ∧ nodeCount t1.root = nodeCount t2.root ∧
        t1.xMin = t2.xMin ∧ t1.yMin = t2.yMin ∧ t1.xMax = t2.xMax ∧
        t1.yMax = t2.yMax ∧ p ∈ t1.rejected) := by
  have hstep : ∀ (x1 y1 x2 y2 : JSNum) (n : QNode) (rs : List Pt),
      insertPoints (fuel + 1) x1 y1 x2 y2 n rs (p :: ps2) =
        insertPoints (fuel + 1) x1 y1 x2 y2 n (rs ++ [p]) ps2 := by
    intro x1 y1 x2 y2 n rs
    simp only [insertPoints, insert_nan fuel n p x1 y1 x2 y2 hp]
  refine ⟨hstep, ?_, ?_, ?_⟩
  · -- (ii) the build with p equals the insertion of ps1 ++ ps2 under
    -- the bounds scanned with p
    intro x1 y1 x2 y2 sx1 sy1 sx2 sy2 hsb hsq
    rw [build_eq (fuel + 1) (ps1 ++ p :: ps2) x1 y1 x2 y2 sx1 sy1 sx2 sy2 hsb hsq]
    rw [insertPoints_append, insertPoints_append]
    rcases hipA : insertPoints (fuel + 1) sx1 sy1 sx2 sy2 freshNode [] ps1
      with - | ⟨nA, rsA⟩ <;> dsimp only
    · rfl
    · rw [hstep]
      rw [insertPoints_acc (fuel + 1) sx1 sy1 sx2 sy2 ps2 nA (rsA ++ [p]),
        insertPoints_acc (fuel + 1) sx1 sy1 sx2 sy2 ps2 nA rsA]
      rcases hipC : insertPoints (fuel + 1) sx1 sy1 sx2 sy2 nA [] ps2
        with - | ⟨n2, ext⟩ <;> dsimp only <;> rfl
  · -- (iii) p is reported in the rejected list of every completed build
    intro t1 h
    rcases hsb : scanBounds (ps1 ++ p :: ps2) with ⟨x1, y1, x2, y2⟩
    rcases hsq : squarify x1 y1 x2 y2 with ⟨sx1, sy1, sx2, sy2⟩
    rw [build_eq (fuel + 1) (ps1 ++ p :: ps2) x1 y1 x2 y2 sx1 sy1 sx2 sy2 hsb hsq] at h
    rw [insertPoints_append] at h
    rcases hipA : insertPoints (fuel + 1) sx1 sy1 sx2 sy2 freshNode [] ps1
      with - | ⟨nA, rsA⟩ <;> rw [hipA] at h <;> dsimp only at h
    · exact Option.noConfusion h
    · rw [hstep, insertPoints_acc] at h
      rcases hipC : insertPoints (fuel + 1) sx1 sy1 sx2 sy2 nA [] ps2
        with - | ⟨n2, ext⟩ <;> rw [hipC] at h <;> dsimp only at h
      · exact Option.noConfusion h
      · obtain rfl : (⟨n2, sx1, sy1, sx2, sy2, rsA ++ [p] ++ ext⟩ : QTree) = t1 :=
          Option.some.inj h
        simp
  · -- (iv) scan-unchanged: the finished tree is identical without p
    intro hscan t2 h
    rcases hsb : scanBounds (ps1 ++ ps2) with ⟨x1, y1, x2, y2⟩
    rcases hsq : squarify x1 y1 x2 y2 with ⟨sx1, sy1, sx2, sy2⟩
    rw [build_eq (fuel + 1) (ps1 ++ ps2) x1 y1 x2 y2 sx1 sy1 sx2 sy2 hsb hsq] at h
    rw [build_eq (fuel + 1) (ps1 ++ p :: ps2) x1 y1 x2 y2 sx1 sy1 sx2 sy2
      (hscan.trans hsb) hsq]
    rw [insertPoints_append] at h ⊢
    rcases hipA : insertPoints (fuel + 1) sx1 sy1 sx2 sy2 freshNode [] ps1 with - | ⟨nA, rsA⟩ <;>
      rw [hipA] at h <;> dsimp only at h ⊢
    · exact Option.noConfusion h
    · rw [hstep]
      rcases hipB : insertPoints (fuel + 1) sx1 sy1 sx2 sy2 nA [] ps2 with - | ⟨nB, ext⟩
      · rw [insertPoints_acc, hipB] at h
        dsimp only at h
        exact Option.noConfusion h
      · rw [insertPoints_acc, hipB] at h
        rw [insertPoints_acc, hipB]
        dsimp only at h ⊢
        obtain rfl : (⟨nB, sx1, sy1, sx2, sy2, rsA ++ ext⟩ : QTree) = t2 := Option.some.inj h
        exact ⟨⟨nB, sx1, sy1, sx2, sy2, rsA ++ [p] ++ ext⟩, rfl, rfl, rfl, rfl, rfl, rfl, rfl,
          by simp⟩

/-- C2 witness: the scan-changing headline case — `(NaN, 100)` among
`[(0,0), (6,6)]`: the particle is dropped at its step, the build
completes as the insertion of the other two particles under the
widened bounds, and the particle is reported as rejected. -/
theorem build_nan_dropped_witness :
    ((⟨JSNum.nan, fin 100⟩ : Pt).x.isNaN || (⟨JSNum.nan, fin 100⟩ : Pt).y.isNaN) = true ∧
      ((∀ (x1 y1 x2 y2 : JSNum) (n : QNode) (rs : List Pt),
        insertPoints (29 + 1) x1 y1 x2 y2 n rs
            ((⟨JSNum.nan, fin 100⟩ : Pt) :: [⟨fin 6, fin 6⟩]) =
          insertPoints (29 + 1) x1 y1 x2 y2 n (rs ++ [⟨JSNum.nan, fin 100⟩])
            [⟨fin 6, fin 6⟩]) ∧
      (∀ (x1 y1 x2 y2 sx1 sy1 sx2 sy2 : JSNum),
        scanBounds ([⟨fin 0, fin 0⟩] ++ (⟨JSNum.nan, fin 100⟩ : Pt) :: [⟨fin 6, fin 6⟩]) =
          (x1, y1, x2, y2) →
        squarify x1 y1 x2 y2 = (sx1, sy1, sx2, sy2) →
        (build (29 + 1) ([⟨fin 0, fin 0⟩] ++
            (⟨JSNum.nan, fin 100⟩ : Pt) :: [⟨fin 6, fin 6⟩])).map QTree.root =
          (insertPoints (29 + 1) sx1 sy1 sx2 sy2 freshNode []
              ([⟨fin 0, fin 0⟩] ++ [⟨fin 6, fin 6⟩])).map (fun z => z.1)) ∧
      (∀ t1, build (29 + 1) ([⟨fin 0, fin 0⟩] ++
          (⟨JSNum.nan, fin 100⟩ : Pt) :: [⟨fin 6, fin 6⟩]) = some t1 →
        (⟨JSNum.nan, fin 100⟩ : Pt) ∈ t1.rejected) ∧
      (scanBounds ([⟨fin 0, fin 0⟩] ++ (⟨JSNum.nan, fin 100⟩ : Pt) :: [⟨fin 6, fin 6⟩]) =
          scanBounds ([⟨fin 0, fin 0⟩] ++ [⟨fin 6, fin 6⟩]) →
        ∀ t2, build (29 + 1) ([⟨fin 0, fin 0⟩] ++ [⟨fin 6, fin 6⟩]) = some t2 →
        ∃ t1, build (29 + 1) ([⟨fin 0, fin 0⟩] ++
            (⟨JSNum.nan, fin 100⟩ : Pt) :: [⟨fin 6, fin 6⟩]) = some t1 ∧
          t1.root = t2.root ∧ nodeCount t1.root = nodeCount t2.root ∧
          t1.xMin = t2.xMin ∧ t1.yMin = t2.yMin ∧ t1.xMax = t2.xMax ∧
          t1.yMax = t2.yMax ∧ (⟨JSNum.nan, fin 100⟩ : Pt) ∈ t1.rejected)) :=
  ⟨rfl, build_nan_dropped 29 [⟨fin 0, fin 0⟩] [⟨fin 6, fin 6⟩] ⟨JSNum.nan, fin 100⟩ rfl⟩

end Quadtree
